import Mathlib

/-!
Verification of the StockFlow inventory application.

This file gives a shallow Lean embedding of the application's core logic
(ledger balance reconciliation, account status derivation, the three import
modes, manual-import parsing, backup/restore/reset of the cloud collections,
and login) and proves properties about it.

Monetary amounts are embedded as rationals; the application performs exact
decimal arithmetic on small ledger values, and the boundary comparisons we
study (tolerances 0.01 and 0.05, two-decimal rounding) are stated on the same
rationals.  JavaScript `toFixed(2)` rounding of a nonnegative value is
modelled as round-half-up to two decimals.  `Array.prototype.sort` with the
comparator `a.createdAt - b.createdAt` is a stable ascending sort and is
modelled by stable insertion sort on `createdAt`.
-/

namespace StockFlow

/-- Transaction types of a ledger entry (`types.ts`, `StockItem.type`). -/
inductive TxType where
  | IN
  | OUT
  | TEMP_USE
deriving DecidableEq, Repr

/-- Derived account status of a stock code (`types.ts`, `AccountStatus`). -/
inductive AccountStatus where
  | OPEN
  | CLOSED
deriving DecidableEq, Repr

/-- Ledger transaction record (`types.ts`, `StockItem`).  Optional fields of
the TypeScript interface are embedded as `Option`. -/
structure StockItem where
  id : String
  date : String
  code : String
  provider : String
  phoneNumber : String
  amount : ℚ
  type : TxType
  orderNumber : Option String
  createdAt : ℕ
  createdBy : Option String
deriving DecidableEq, Repr

/-- Sum of the amounts of all entries of one transaction type
(`Dashboard`, `stats`: `data.filter(i => i.type === t).reduce((acc, item) => acc + item.amount, 0)`). -/
def totalOfType (t : TxType) (data : List StockItem) : ℚ :=
  (data.filter (fun i => i.type = t)).foldl (fun acc item => acc + item.amount) 0

/-- Official inventory value (`Dashboard`, `stats`): `totalIn - totalOut`. -/
def officialInventoryValue (data : List StockItem) : ℚ :=
  totalOfType .IN data - totalOfType .OUT data

/-- Physical inventory value (`Dashboard`, `stats`): `totalIn - totalOut - totalTemp`. -/
def physicalInventoryValue (data : List StockItem) : ℚ :=
  totalOfType .IN data - totalOfType .OUT data - totalOfType .TEMP_USE data

/-- Ordering used by every `sort((a, b) => a.createdAt - b.createdAt)` call. -/
def txLe (a b : StockItem) : Prop := a.createdAt ≤ b.createdAt

instance : DecidableRel txLe := fun a b => Nat.decLe a.createdAt b.createdAt

instance : IsTotal StockItem txLe := ⟨fun a b => Nat.le_total a.createdAt b.createdAt⟩

instance : IsTrans StockItem txLe := ⟨fun _ _ _ => Nat.le_trans⟩

/-- Transactions of one stock code, in original order (the grouping step of
`accountStatusMap` in `App.tsx` and of `calculatedTransactions` in
`TransactionReport.tsx`). -/
def itemsForCode (items : List StockItem) (code : String) : List StockItem :=
  items.filter (fun i => i.code = code)

/-- Stable ascending sort on `createdAt`, modelling
`txs.sort((a, b) => a.createdAt - b.createdAt)`. -/
def sortByCreatedAt (l : List StockItem) : List StockItem :=
  List.insertionSort txLe l

/-- Running-balance step of `TransactionReport.tsx` (`calculatedTransactions`):
the balance increases on IN and decreases on OUT and on TEMP_USE. -/
def runningStep (acc : ℚ) (item : StockItem) : ℚ :=
  match item.type with
  | .IN => acc + item.amount
  | .OUT => acc - item.amount
  | .TEMP_USE => acc - item.amount

/-- Final running balance of one code in `TransactionReport.tsx`: fold the
running-balance step over the code's transactions sorted chronologically. -/
def finalRunningBalance (items : List StockItem) (code : String) : ℚ :=
  (sortByCreatedAt (itemsForCode items code)).foldl runningStep 0

/-- Account status of a code with at least one transaction (`App.tsx`,
`accountStatusMap`): sort the code's transactions by `createdAt`, look at the
last one; IN or TEMP_USE gives OPEN, otherwise CLOSED.  `none` models a code
absent from the map (no transactions). -/
def accountStatus? (items : List StockItem) (code : String) : Option AccountStatus :=
  match (sortByCreatedAt (itemsForCode items code)).getLast? with
  | none => none
  | some lastTx =>
    if lastTx.type = .IN ∨ lastTx.type = .TEMP_USE then some .OPEN else some .CLOSED

/-- Status lookup with default, modelling `accountStatusMap[item.code] || 'CLOSED'`
in `App.tsx` (`handleImport`). -/
def statusOrClosed (items : List StockItem) (code : String) : AccountStatus :=
  (accountStatus? items code).getD .CLOSED

/-- Official balance of one code (`App.tsx`, `handleImport`): the
`officialInventoryMap` is built by one pass over `items`, adding IN amounts
and subtracting OUT amounts for the entry's code (TEMP_USE entries are
ignored); a missing key reads as 0.  This embedding is the projection of that
map at `code`. -/
def officialBalance (items : List StockItem) (code : String) : ℚ :=
  items.foldl
    (fun acc item =>
      if item.code = code then
        match item.type with
        | .IN => acc + item.amount
        | .OUT => acc - item.amount
        | .TEMP_USE => acc
      else acc)
    0

/-- Import modes (`types.ts`, `ImportMode`). -/
inductive ImportMode where
  | ADD_STOCK
  | CALCULATE_USAGE
  | AUDIT_SYSTEM
deriving DecidableEq, Repr

/-- Audit row status (`types.ts`, `AuditResult.status`). -/
inductive AuditStatus where
  | MATCH
  | MISMATCH
deriving DecidableEq, Repr

/-- Audit report row (`types.ts`, `AuditResult`). -/
structure AuditResult where
  code : String
  provider : String
  phoneNumber : String
  appBalance : ℚ
  systemBalance : ℚ
  difference : ℚ
  status : AuditStatus
deriving DecidableEq, Repr

/-- Entry handed to `handleImport` (`Omit<StockItem, 'id' | 'createdAt' | 'type'>`). -/
structure ImportEntry where
  date : String
  code : String
  provider : String
  phoneNumber : String
  amount : ℚ
  orderNumber : Option String
  createdBy : Option String
deriving DecidableEq, Repr

/-- Audit-mode branch of `handleImport` (`App.tsx`): for each entry, the app
balance is the official per-code balance (0 for an unknown code), the
difference is app balance minus the supplied amount, and the status is MATCH
when `Math.abs(diff) < 0.05`, otherwise MISMATCH. -/
def handleImportAudit (items : List StockItem) (entries : List ImportEntry) : List AuditResult :=
  entries.map (fun item =>
    let appBalance := officialBalance items item.code
    let diff := appBalance - item.amount
    { code := item.code
      provider := item.provider
      phoneNumber := item.phoneNumber
      appBalance := appBalance
      systemBalance := item.amount
      difference := diff
      status := if |diff| < 5/100 then .MATCH else .MISMATCH })

/-- Two-decimal rounding, modelling `parseFloat(x.toFixed(2))` for the
nonnegative values it is applied to (round half up). -/
def round2 (q : ℚ) : ℚ := (round (q * 100) : ℤ) / 100

/-- One `forEach` step of the write-mode branches of `handleImport`: `post`
decides whether the entry at the current index yields a new record; the state
is the accumulated batch and the entry index (a fresh uuid is drawn for every
entry, posted or not, so the index advances unconditionally). -/
def importStep (post : ℕ → ImportEntry → Option StockItem)
    (st : List StockItem × ℕ) (item : ImportEntry) : List StockItem × ℕ :=
  match post st.2 item with
  | some newItem => (st.1 ++ [newItem], st.2 + 1)
  | none => (st.1, st.2 + 1)

/-- ADD_STOCK decision in `handleImport` (`App.tsx`): post
`{ ...item, id: newId, createdAt: timestamp, type: 'IN' }` exactly when the
code's status (defaulting to CLOSED) is CLOSED. -/
def addStockPost (items : List StockItem) (timestamp : ℕ) (uuid : ℕ → String)
    (idx : ℕ) (item : ImportEntry) : Option StockItem :=
  if statusOrClosed items item.code = .CLOSED then
    some { id := uuid idx, date := item.date, code := item.code, provider := item.provider,
           phoneNumber := item.phoneNumber, amount := item.amount, type := .IN,
           orderNumber := item.orderNumber, createdAt := timestamp, createdBy := item.createdBy }
  else none

/-- ADD_STOCK branch of `handleImport`: the list of new records written by the
batch. -/
def handleImportAdd (items : List StockItem) (timestamp : ℕ) (uuid : ℕ → String)
    (entries : List ImportEntry) : List StockItem :=
  (entries.foldl (importStep (addStockPost items timestamp uuid)) ([], 0)).1

/-- CALCULATE_USAGE decision in `handleImport` (`App.tsx`): for an OPEN code,
let `diff = currentBalance - item.amount`; when `Math.abs(diff) > 0.01`, post
a record of type OUT if `diff > 0` else IN, with amount
`parseFloat(Math.abs(diff).toFixed(2))`. -/
def calcUsagePost (items : List StockItem) (timestamp : ℕ) (uuid : ℕ → String)
    (idx : ℕ) (item : ImportEntry) : Option StockItem :=
  if statusOrClosed items item.code = .OPEN then
    let currentBalance := officialBalance items item.code
    let diff := currentBalance - item.amount
    if |diff| > 1/100 then
      some { id := uuid idx, date := item.date, code := item.code, provider := item.provider,
             phoneNumber := item.phoneNumber, amount := round2 |diff|,
             type := if diff > 0 then .OUT else .IN,
             orderNumber := item.orderNumber, createdAt := timestamp, createdBy := item.createdBy }
    else none
  else none

/-- CALCULATE_USAGE branch of `handleImport`: the list of new records written
by the batch. -/
def handleImportCalc (items : List StockItem) (timestamp : ℕ) (uuid : ℕ → String)
    (entries : List ImportEntry) : List StockItem :=
  (entries.foldl (importStep (calcUsagePost items timestamp uuid)) ([], 0)).1

/-- JavaScript `String.prototype.trim`, modelled on the character list. -/
def jsTrim (l : List Char) : List Char :=
  ((l.dropWhile Char.isWhitespace).reverse.dropWhile Char.isWhitespace).reverse

/-- JavaScript `split(sep)` with a one-character string separator: an empty
input yields one empty segment. -/
def splitOnChar (c : Char) : List Char → List (List Char)
  | [] => [[]]
  | x :: xs =>
    match splitOnChar c xs with
    | [] => [[]]
    | h :: t => if x = c then [] :: h :: t else (x :: h) :: t

/-- Segments of a character list cut at every whitespace character. -/
def splitOnWs : List Char → List (List Char)
  | [] => [[]]
  | x :: xs =>
    match splitOnWs xs with
    | [] => [[]]
    | h :: t => if x.isWhitespace then [] :: h :: t else (x :: h) :: t

/-- JavaScript `split(/\s+/)` applied to a trimmed string: whitespace runs
separate the tokens and produce no empty tokens. -/
def splitWs (l : List Char) : List (List Char) :=
  (splitOnWs l).filter (fun w => w ≠ [])

/-- Numeric value of a run of decimal digits. -/
def digitsVal (ds : List Char) : ℕ :=
  ds.foldl (fun acc c => acc * 10 + (c.toNat - 48)) 0

/-- Exponent part of a JavaScript float literal: an optional sign followed by
digits; with no digit the exponent marker is not part of the parsed prefix
and the exponent is 0. -/
def expVal (l : List Char) : ℤ :=
  let sl : ℤ × List Char :=
    match l with
    | '-' :: rest => (-1, rest)
    | '+' :: rest => (1, rest)
    | _ => (1, l)
  let ds := sl.2.takeWhile Char.isDigit
  if ds.isEmpty then 0 else sl.1 * digitsVal ds

/-- JavaScript `parseFloat`, modelled for decimal literals: leading whitespace
is skipped, then an optional sign, integer digits, an optional fraction and an
optional exponent are read as the longest valid prefix; `none` models `NaN`
(no digit in the mantissa).  The `Infinity` literal is not modelled. -/
def jsParseFloat (l : List Char) : Option ℚ :=
  let l0 := l.dropWhile Char.isWhitespace
  let sl : ℚ × List Char :=
    match l0 with
    | '-' :: rest => (-1, rest)
    | '+' :: rest => (1, rest)
    | _ => (1, l0)
  let intPart := sl.2.takeWhile Char.isDigit
  let l1 := sl.2.dropWhile Char.isDigit
  let fl : List Char × List Char :=
    match l1 with
    | '.' :: rest => (rest.takeWhile Char.isDigit, rest.dropWhile Char.isDigit)
    | _ => ([], l1)
  if intPart.isEmpty ∧ fl.1.isEmpty then none
  else
    let mant : ℚ := (digitsVal intPart : ℚ) + (digitsVal fl.1 : ℚ) / 10 ^ fl.1.length
    let e : ℤ :=
      match fl.2 with
      | 'e' :: rest => expVal rest
      | 'E' :: rest => expVal rest
      | _ => 0
    some (sl.1 * mant * (10 : ℚ) ^ e)

/-- Removal of the first occurrence of a character, modelling the JavaScript
`replace('-', '')` call (a string pattern replaces only the first match). -/
def removeFirstChar (c : Char) : List Char → List Char
  | [] => []
  | x :: xs => if x = c then xs else x :: removeFirstChar c xs

/-- Removal of every occurrence of a character, modelling `replace(/,/g, '')`. -/
def removeAllChar (c : Char) (l : List Char) : List Char :=
  l.filter (fun x => x ≠ c)

/-- Last token of a token list, modelling `parts[parts.length - 1]`. -/
def lastTok (parts : List (List Char)) : List Char :=
  (parts.getLast?).getD []

/-- Item produced by one manual-import line (`ImportModal.tsx`,
`handleManualParse`).  `phoneNumber` is `none` when the source leaves the
field `undefined`; `amount` is `none` when the source stores `NaN` (the
unchecked `parseFloat` of the ADD_STOCK branch). -/
structure ParsedItem where
  date : String
  code : String
  provider : String
  phoneNumber : Option String
  amount : Option ℚ
deriving DecidableEq, Repr

/-- One line of `handleManualParse` (`ImportModal.tsx`): trim the line, return
`null` on a blank line, then parse according to the active mode.
AUDIT_SYSTEM: at least 3 tokens, code from token 1 with its first hyphen
removed (falling back to token 2 when that leaves it empty), amount from the
last token with commas removed (`null` on `NaN`), provider from token 3 only
when more than 4 tokens exist, phone from token 2.  CALCULATE_USAGE: `null`
unless code and provider tokens exist; the amount comes from the last token
when at least 4 tokens exist and it parses, else 0; phone is token 2 when
present.  ADD_STOCK: `null` with fewer than 5 tokens, else the first five
tokens with the amount from `parseFloat` unchecked. -/
def parseLine (mode : ImportMode) (today : String) (line : List Char) : Option ParsedItem :=
  let cleanLine := jsTrim line
  if cleanLine = [] then none
  else
    match mode with
    | .AUDIT_SYSTEM =>
      match splitWs cleanLine with
      | p0 :: p1 :: p2 :: rest =>
        let parts := p0 :: p1 :: p2 :: rest
        let code0 := jsTrim (removeFirstChar '-' p1)
        let amount := jsParseFloat (removeAllChar ',' (lastTok parts))
        let code1 := if code0 = [] then p2 else code0
        let provider : List Char :=
          match rest with
          | p3 :: _ :: _ => p3
          | _ => "System".data
        match amount with
        | none => none
        | some a =>
          some { date := today, code := ⟨code1⟩, provider := ⟨provider⟩,
                 phoneNumber := some ⟨p2⟩, amount := some a }
      | _ => none
    | .CALCULATE_USAGE =>
      match splitWs cleanLine with
      | p0 :: p1 :: rest =>
        let parts := p0 :: p1 :: rest
        let amount : ℚ :=
          if 4 ≤ parts.length then
            match jsParseFloat (lastTok parts) with
            | some v => v
            | none => 0
          else 0
        some { date := today, code := ⟨p0⟩, provider := ⟨p1⟩,
               phoneNumber := rest.head?.map (fun w => (⟨w⟩ : String)),
               amount := some amount }
      | _ => none
    | .ADD_STOCK =>
      match splitWs cleanLine with
      | p0 :: p1 :: p2 :: p3 :: p4 :: _ =>
        some { date := ⟨p0⟩, code := ⟨p1⟩, provider := ⟨p2⟩,
               phoneNumber := some ⟨p3⟩, amount := jsParseFloat p4 }
      | _ => none

/-- Manual parse of the whole text area (`ImportModal.tsx`,
`handleManualParse`): trim the input, split on newlines, parse each line,
drop the `null` results; `none` models the error banner shown when no line
parsed (nothing is then handed to `onImport`). -/
def handleManualParse (mode : ImportMode) (today : String) (input : String) :
    Option (List ParsedItem) :=
  let lines := splitOnChar '\n' (jsTrim input.data)
  let parsed := lines.filterMap (parseLine mode today)
  if parsed = [] then none else some parsed

/-- Record of a restored backup collection (`App.tsx`, `handleRestoreData`):
only the document key matters, taken from `item.id || item.day`; an absent or
empty field is the empty string. -/
structure RestoreRecord where
  id : String
  day : String
deriving DecidableEq, Repr

/-- Document key used by the restore loop: `item.id || item.day`. -/
def docKey (r : RestoreRecord) : String :=
  if r.id ≠ "" then r.id else r.day

/-- Modelled Firestore `WriteBatch`: an ordered list of pending set
operations plus a committed flag.  Per the Firestore SDK, a batch is
single-use: adding an operation to a committed batch, or committing it a
second time, throws. -/
structure WriteBatch where
  ops : List (String × RestoreRecord)
  committed : Bool
deriving DecidableEq, Repr

/-- Fresh batch, modelling `writeBatch(db)`. -/
def writeBatchNew : WriteBatch := { ops := [], committed := false }

/-- Modelled `batch.set(doc(db, coll, key), item)`. -/
def batchSet (b : WriteBatch) (key : String) (r : RestoreRecord) :
    Except String WriteBatch :=
  if b.committed then Except.error "batch already committed"
  else Except.ok { ops := b.ops ++ [(key, r)], committed := false }

/-- Modelled `batch.commit()`: returns the committed operations. -/
def batchCommit (b : WriteBatch) :
    Except String (List (String × RestoreRecord) × WriteBatch) :=
  if b.committed then Except.error "batch already committed"
  else Except.ok (b.ops, { b with committed := true })

/-- Loop body of `uploadCollection` (`App.tsx`, `handleRestoreData`): set the
record on the one batch created before the loop, and commit that same batch
whenever the operation counter reaches 450 (the counter is reset, the batch
object is not replaced).  The state is (batch, opCount, committed chunks). -/
def uploadStep (st : WriteBatch × ℕ × List (List (String × RestoreRecord)))
    (item : RestoreRecord) :
    Except String (WriteBatch × ℕ × List (List (String × RestoreRecord))) := do
  let b ← batchSet st.1 (docKey item) item
  let opCount := st.2.1 + 1
  if 450 ≤ opCount then
    let co ← batchCommit b
    pure (co.2, 0, st.2.2 ++ [co.1])
  else
    pure (b, opCount, st.2.2)

/-- Embedding of `uploadCollection` (`App.tsx`, `handleRestoreData`): nothing
happens on an empty collection; otherwise the loop runs over the data and a
final commit flushes a nonzero remainder.  The result is the list of
committed chunks, or the error raised by the modelled Firestore batch. -/
def uploadCollection (data : List RestoreRecord) :
    Except String (List (List (String × RestoreRecord))) := do
  if data.length = 0 then pure []
  else
    let st ← data.foldlM uploadStep (writeBatchNew, 0, [])
    if 0 < st.2.1 then
      let co ← batchCommit st.1
      pure (st.2.2 ++ [co.1])
    else pure st.2.2

/-- Employee shift request (`types.ts`, `EmployeeRequest`). -/
structure EmployeeRequest where
  id : String
  day : String
  shift : String
deriving DecidableEq, Repr

/-- Staff record (`types.ts`, `Employee`); the shift union type is kept as a
string. -/
structure Employee where
  id : String
  name : String
  primaryShift : Option String
  requests : Option (List EmployeeRequest)
deriving DecidableEq, Repr

/-- One assignment of a day schedule (`types.ts`, `DaySchedule.assignments`). -/
structure Assignment where
  employeeId : String
  employeeName : String
  shift : String
deriving DecidableEq, Repr

/-- Per-day schedule (`types.ts`, `DaySchedule`). -/
structure DaySchedule where
  day : String
  assignments : List Assignment
deriving DecidableEq, Repr

/-- Team note (`types.ts`, `Note`). -/
structure Note where
  id : String
  content : String
  author : String
  color : String
  createdAt : ℕ
  imageUrl : Option String
deriving DecidableEq, Repr

/-- User role (`types.ts`, `UserRole`). -/
inductive UserRole where
  | admin
  | staff
deriving DecidableEq, Repr

/-- User record (`types.ts`, `User`); the view-name union type of the
permission list is kept as a string. -/
structure User where
  id : String
  username : String
  password : String
  name : String
  role : UserRole
  permissions : Option (List String)
deriving DecidableEq, Repr

/-- Cloud database state: the five Firestore collections, each a list of
documents keyed by document id. -/
structure Database where
  users : List (String × User)
  inventory : List (String × StockItem)
  employees : List (String × Employee)
  schedule : List (String × DaySchedule)
  notes : List (String × Note)

/-- Modelled `deleteDoc`: remove the documents stored under a key. -/
def deleteDocById {α : Type} (docId : String) (coll : List (String × α)) :
    List (String × α) :=
  coll.filter (fun d => d.1 ≠ docId)

/-- Embedding of `clearColl` (`App.tsx`, `handleResetData`): snapshot the
collection and batch-delete every fetched document reference. -/
def clearColl {α : Type} (coll : List (String × α)) : List (String × α) :=
  coll.foldl (fun acc d => deleteDocById d.1 acc) coll

/-- Embedding of `handleResetData` (`App.tsx`), after the confirm dialog: the
inventory, schedule, notes and employees collections are cleared; the users
collection is not touched. -/
def handleResetData (db : Database) : Database :=
  { db with
    inventory := clearColl db.inventory
    schedule := clearColl db.schedule
    notes := clearColl db.notes
    employees := clearColl db.employees }

/-- JavaScript `toLowerCase`, modelled characterwise. -/
def jsToLower (s : String) : String := ⟨s.data.map Char.toLower⟩

/-- Outcome of a login attempt (`LoginScreen`, `handleLogin`): the user handed
to `onLogin` (if any), the resulting password field content, and whether the
error banner is shown. -/
structure LoginOutcome where
  loggedIn : Option User
  passwordField : String
  errorShown : Bool
deriving DecidableEq, Repr

/-- Embedding of `handleLogin` (`LoginScreen`): find the first user whose
username matches case-insensitively; on an exact password match call
`onLogin`, otherwise show the error and clear the password field. -/
def handleLogin (users : List User) (username password : String) : LoginOutcome :=
  match users.find? (fun u => jsToLower u.username = jsToLower username) with
  | some u =>
    if u.password = password then ⟨some u, password, false⟩
    else ⟨none, "", true⟩
  | none => ⟨none, "", true⟩

/-- Value stored under one key of the exported backup object. -/
inductive ExportValue where
  | stockItems (l : List StockItem)
  | employeeList (l : List Employee)
  | scheduleList (l : List DaySchedule)
  | noteList (l : List Note)
  | userList (l : List User)
deriving DecidableEq

/-- Embedding of `handleExportData` (`App.tsx`): the exported JSON object is
`{ items, employees, schedule, notes, users }` built from the current state,
modelled as an ordered key-value object. -/
def handleExportData (items : List StockItem) (employees : List Employee)
    (schedule : List DaySchedule) (notes : List Note) (users : List User) :
    List (String × ExportValue) :=
  [("items", .stockItems items),
   ("employees", .employeeList employees),
   ("schedule", .scheduleList schedule),
   ("notes", .noteList notes),
   ("users", .userList users)]

deriving instance DecidableEq for Except

/-- Signed contribution of one ledger entry to the running balance of
`TransactionReport.tsx`: IN adds the amount, OUT and TEMP_USE subtract it. -/
def signedAmount (i : StockItem) : ℚ :=
  match i.type with
  | .IN => i.amount
  | .OUT => -i.amount
  | .TEMP_USE => -i.amount

/-- CALCULATE_USAGE posting rule in the words of the (amended) claim: for an
entry whose code is OPEN, post exactly when the absolute difference between
the current official balance and the imported ending balance strictly exceeds
the 0.01 tolerance; the posted type is OUT when the difference is positive
and IN when it is negative, and the amount is the absolute difference rounded
to two decimals. -/
def calcUsageSpecPost (items : List StockItem) (timestamp : ℕ) (uuid : ℕ → String)
    (idx : ℕ) (item : ImportEntry) : Option StockItem :=
  if statusOrClosed items item.code = .OPEN ∧
      1/100 < |officialBalance items item.code - item.amount| then
    some { id := uuid idx, date := item.date, code := item.code, provider := item.provider,
           phoneNumber := item.phoneNumber,
           amount := round2 |officialBalance items item.code - item.amount|,
           type := if 0 < officialBalance items item.code - item.amount then .OUT else .IN,
           orderNumber := item.orderNumber, createdAt := timestamp, createdBy := item.createdBy }
  else none

/-- App balance in the words of the claim: the per-code sum of IN amounts
minus the per-code sum of OUT amounts (0 for an unknown code). -/
def specAppBalance (items : List StockItem) (code : String) : ℚ :=
  (((itemsForCode items code).filter (fun i => i.type = .IN)).map (fun i => i.amount)).sum -
  (((itemsForCode items code).filter (fun i => i.type = .OUT)).map (fun i => i.amount)).sum

/-- Audit row in the words of the (amended) claim: the app balance is the
per-code sum of IN minus OUT amounts, the difference is app balance minus the
supplied system balance, and the row is MISMATCH exactly when the absolute
difference is at least the 0.05 tolerance. -/
def auditSpecRow (items : List StockItem) (item : ImportEntry) : AuditResult :=
  { code := item.code, provider := item.provider, phoneNumber := item.phoneNumber,
    appBalance := specAppBalance items item.code,
    systemBalance := item.amount,
    difference := specAppBalance items item.code - item.amount,
    status :=
      if 5/100 ≤ |specAppBalance items item.code - item.amount| then .MISMATCH else .MATCH }

/-- Line-skipping condition of the (amended) claim, exactly as the manual
parser behaves per mode: ADD_STOCK skips lines with fewer than 5
whitespace-separated tokens, CALCULATE_USAGE skips lines with fewer than 2
tokens, and AUDIT_SYSTEM skips lines with fewer than 3 tokens or with a
non-numeric last token once commas are removed.  Blank lines fall under the
token-count conditions. -/
def lineSkipped (mode : ImportMode) (line : List Char) : Prop :=
  match mode with
  | .ADD_STOCK => (splitWs (jsTrim line)).length < 5
  | .CALCULATE_USAGE => (splitWs (jsTrim line)).length < 2
  | .AUDIT_SYSTEM =>
      (splitWs (jsTrim line)).length < 3 ∨
      jsParseFloat (removeAllChar ',' (lastTok (splitWs (jsTrim line)))) = none

/-- Ledger entry fixture used by the concrete test inputs. -/
def mkItem (code : String) (t : TxType) (amount : ℚ) (createdAt : ℕ) : StockItem :=
  { id := "", date := "d", code := code, provider := "P", phoneNumber := "",
    amount := amount, type := t, orderNumber := none, createdAt := createdAt,
    createdBy := none }

/-- Entry fixture used by the concrete test inputs. -/
def mkEntry (code : String) (amount : ℚ) : ImportEntry :=
  { date := "d", code := code, provider := "P", phoneNumber := "",
    amount := amount, orderNumber := none, createdBy := none }

/-- Ledger with IN 100, OUT 30 and TEMP_USE 20 on one code. -/
def c1items : List StockItem :=
  [mkItem "C1" .IN 100 1, mkItem "C1" .OUT 30 2, mkItem "C1" .TEMP_USE 20 3]

/-- Ledger whose official balance on code A is 10.01. -/
def c2items : List StockItem := [mkItem "A" .IN (1001/100) 1]

/-- Imported ending balance 10 for code A. -/
def c2entry : ImportEntry := mkEntry "A" 10

/-- Imported system balance 0.05 for code A. -/
def c3entry : ImportEntry := mkEntry "A" (1/20)

/-- Ledger with an IN followed by an OUT on code A. -/
def c4items : List StockItem := [mkItem "A" .IN 5 1, mkItem "A" .OUT 5 2]

/-- Ledger whose most recent transaction on code B is an IN. -/
def c5items : List StockItem := [mkItem "B" .IN 10 1]

/-- Entries for a code with no transactions and for the OPEN code B. -/
def c5entries : List ImportEntry := [mkEntry "A" 5, mkEntry "B" 7]

/-- User fixture. -/
def c9users : List User :=
  [{ id := "1", username := "Admin", password := "pw", name := "A",
     role := .admin, permissions := none }]

/-! Helper lemmas. -/

theorem foldl_add_amount (l : List StockItem) (a : ℚ) :
    l.foldl (fun acc item => acc + item.amount) a = a + (l.map (fun i => i.amount)).sum := by
  induction l generalizing a with
  | nil => simp
  | cons x xs ih => simp [ih]; ring

theorem totalOfType_eq_sum (t : TxType) (data : List StockItem) :
    totalOfType t data = ((data.filter (fun i => i.type = t)).map (fun i => i.amount)).sum := by
  simpa [totalOfType] using foldl_add_amount (data.filter (fun i => i.type = t)) 0

theorem foldl_runningStep (l : List StockItem) (a : ℚ) :
    l.foldl runningStep a = a + (l.map signedAmount).sum := by
  induction l generalizing a with
  | nil => simp
  | cons x xs ih =>
    rcases hx : x.type <;>
      simp [runningStep, signedAmount, hx, ih] <;> ring

theorem physical_eq_sum_signed (l : List StockItem) :
    physicalInventoryValue l = (l.map signedAmount).sum := by
  induction l with
  | nil => simp [physicalInventoryValue, totalOfType]
  | cons x xs ih =>
    rcases hx : x.type <;>
      simp only [physicalInventoryValue, totalOfType_eq_sum, List.filter_cons, hx,
        List.map_cons, List.sum_cons, signedAmount] at ih ⊢ <;>
      simp <;> linarith [ih]

theorem finalRunningBalance_eq_physical (items : List StockItem) (code : String) :
    finalRunningBalance items code = physicalInventoryValue (itemsForCode items code) := by
  unfold finalRunningBalance sortByCreatedAt
  rw [foldl_runningStep, zero_add, physical_eq_sum_signed]
  exact ((List.perm_insertionSort txLe (itemsForCode items code)).map signedAmount).sum_eq

/-! Theorems for the claims. -/

/-- C1: for every list of stock items the computed official balance is the
sum of IN amounts minus the sum of OUT amounts, the computed physical balance
is the official balance minus the sum of TEMP_USE amounts, the final
per-code running balance of the transaction report agrees with the physical
balance of that code's postings, and in particular a code with postings
IN 100, OUT 30, TEMP_USE 20 has official balance 70 and physical balance 50. -/
theorem balances_reconciliation :
    (∀ data : List StockItem,
        officialInventoryValue data =
          ((data.filter (fun i => i.type = .IN)).map (fun i => i.amount)).sum -
          ((data.filter (fun i => i.type = .OUT)).map (fun i => i.amount)).sum) ∧
    (∀ data : List StockItem,
        physicalInventoryValue data =
          officialInventoryValue data -
          ((data.filter (fun i => i.type = .TEMP_USE)).map (fun i => i.amount)).sum) ∧
    (∀ (items : List StockItem) (code : String),
        finalRunningBalance items code = physicalInventoryValue (itemsForCode items code)) ∧
    officialInventoryValue c1items = 70 ∧
    physicalInventoryValue c1items = 50 := by
  refine ⟨?_, ?_, finalRunningBalance_eq_physical, ?_, ?_⟩
  · intro data
    simp [officialInventoryValue, totalOfType_eq_sum]
  · intro data
    simp [physicalInventoryValue, officialInventoryValue, totalOfType_eq_sum]
  · simp [c1items, mkItem, officialInventoryValue, totalOfType]; norm_num
  · simp [c1items, mkItem, physicalInventoryValue, totalOfType]; norm_num

theorem officialBalance_eq_spec (items : List StockItem) (code : String) :
    officialBalance items code = specAppBalance items code := by
  suffices h : ∀ (l : List StockItem) (a : ℚ),
      l.foldl
        (fun acc item =>
          if item.code = code then
            match item.type with
            | .IN => acc + item.amount
            | .OUT => acc - item.amount
            | .TEMP_USE => acc
          else acc)
        a = a + specAppBalance l code by
    simpa [officialBalance] using h items 0
  intro l
  induction l with
  | nil => intro a; simp [specAppBalance, itemsForCode]
  | cons x xs ih =>
    intro a
    by_cases hc : x.code = code
    · rcases hx : x.type <;>
        simp [specAppBalance, itemsForCode, List.filter_cons, hc, hx, ih] <;> ring
    · simp [specAppBalance, itemsForCode, List.filter_cons, hc, ih]

theorem importStep_foldl (post : ℕ → ImportEntry → Option StockItem)
    (l : List ImportEntry) (batch : List StockItem) (i : ℕ) :
    l.foldl (importStep post) (batch, i) =
      (batch ++ (List.enumFrom i l).filterMap (fun p => post p.1 p.2), i + l.length) := by
  induction l generalizing batch i with
  | nil => simp
  | cons x xs ih =>
    cases hp : post i x with
    | some v =>
      simp [List.foldl_cons, importStep, hp, ih, List.enumFrom_cons, List.filterMap_cons]
      omega
    | none =>
      simp [List.foldl_cons, importStep, hp, ih, List.enumFrom_cons, List.filterMap_cons]
      omega

theorem calcUsagePost_eq_spec (items : List StockItem) (ts : ℕ) (uuid : ℕ → String)
    (idx : ℕ) (e : ImportEntry) :
    calcUsagePost items ts uuid idx e = calcUsageSpecPost items ts uuid idx e := by
  unfold calcUsagePost calcUsageSpecPost
  by_cases h1 : statusOrClosed items e.code = .OPEN <;>
    by_cases h2 : 1/100 < |officialBalance items e.code - e.amount| <;>
    simp [h1, h2]

/-- C2 (amended): in CALCULATE_USAGE mode the written records are exactly the
per-entry posts of the stated rule, and an entry is posted exactly when its
code is OPEN and the absolute difference strictly exceeds the 0.01 tolerance
(entries at or below the tolerance, and entries of non-OPEN codes, are never
posted); the posted type is OUT on a positive difference and IN on a negative
one, with the absolute difference rounded to two decimals as amount. -/
theorem calc_usage_strict_tolerance (items : List StockItem) (ts : ℕ) (uuid : ℕ → String)
    (entries : List ImportEntry) :
    handleImportCalc items ts uuid entries =
      entries.enum.filterMap (fun p => calcUsageSpecPost items ts uuid p.1 p.2) ∧
    (∀ (idx : ℕ) (entry : ImportEntry),
      calcUsageSpecPost items ts uuid idx entry ≠ none ↔
        statusOrClosed items entry.code = .OPEN ∧
        1/100 < |officialBalance items entry.code - entry.amount|) := by
  constructor
  · unfold handleImportCalc
    rw [importStep_foldl]
    simp [List.enum, calcUsagePost_eq_spec]
  · intro idx entry
    unfold calcUsageSpecPost
    by_cases h : statusOrClosed items entry.code = .OPEN ∧
        1/100 < |officialBalance items entry.code - entry.amount| <;>
      simp [h]

/-- C2, boundary counterexample to the claim as stated: the official balance
of code A is 10.01 and the imported ending balance is 10, so the absolute
difference equals the 0.01 tolerance (is not below it), the account is OPEN,
and yet no record is posted. -/
theorem calc_usage_tolerance_boundary_cex :
    statusOrClosed c2items "A" = .OPEN ∧
    |officialBalance c2items "A" - c2entry.amount| = 1/100 ∧
    handleImportCalc c2items 9 (fun _ => "u") [c2entry] = [] := by
  have hob : officialBalance c2items "A" = 1001/100 := by
    simp [c2items, mkItem, officialBalance]
  refine ⟨by decide, ?_, ?_⟩
  · rw [show c2entry.amount = (10:ℚ) from rfl, hob,
      show (1001:ℚ)/100 - 10 = 1/100 by norm_num]
    exact abs_of_nonneg (by norm_num)
  · have hst : statusOrClosed c2items "A" = .OPEN := by decide
    have habs : |officialBalance c2items "A" - (10:ℚ)| = 1/100 := by
      rw [hob, show (1001:ℚ)/100 - 10 = 1/100 by norm_num]
      exact abs_of_nonneg (by norm_num)
    simp [handleImportCalc, importStep, calcUsagePost, c2entry, mkEntry, hst, habs]

/-- C3 (amended): in AUDIT_SYSTEM mode the report rows are exactly the stated
per-entry rows, where the app balance is the per-code sum of IN minus OUT
amounts (0 for an unknown code), the difference is app balance minus system
balance, and the row is MISMATCH exactly when the absolute difference is at
least the fixed 0.05 tolerance, MATCH otherwise. -/
theorem audit_flags_by_tolerance (items : List StockItem) (entries : List ImportEntry) :
    handleImportAudit items entries = entries.map (auditSpecRow items) ∧
    (∀ e : ImportEntry,
      (auditSpecRow items e).status = .MISMATCH ↔
        5/100 ≤ |(auditSpecRow items e).difference|) := by
  constructor
  · unfold handleImportAudit auditSpecRow
    refine List.map_congr_left ?_
    intro e _
    rw [officialBalance_eq_spec]
    by_cases h : 5/100 ≤ |specAppBalance items e.code - e.amount|
    · simp [if_neg (not_lt.mpr h), if_pos h]
    · simp [if_pos (not_le.mp h), if_neg h]
  · intro e
    unfold auditSpecRow
    by_cases h : 5/100 ≤ |specAppBalance items e.code - e.amount| <;> simp [h]

/-- C3, boundary counterexample to the claim as stated: with no transactions
the app balance of code A is 0, the imported system balance is 0.05, so the
absolute difference is exactly 0.05 and does not exceed the tolerance, yet
the row is flagged MISMATCH. -/
theorem audit_tolerance_boundary_cex :
    (handleImportAudit [] [c3entry]).map (fun r => r.status) = [.MISMATCH] ∧
    |officialBalance [] "A" - c3entry.amount| = 1/20 ∧
    ¬ ((5:ℚ)/100 < 1/20) := by
  have h1 : officialBalance [] "A" - c3entry.amount = 0 - 1/20 := rfl
  have habs : |officialBalance [] "A" - c3entry.amount| = 1/20 := by
    rw [h1, zero_sub, abs_neg, abs_of_nonneg (by norm_num : (0:ℚ) ≤ 1/20)]
  refine ⟨?_, habs, by norm_num⟩
  have hrow : (handleImportAudit [] [c3entry]).map (fun r => r.status) =
      [if |officialBalance [] "A" - c3entry.amount| < 5/100 then AuditStatus.MATCH
       else AuditStatus.MISMATCH] := rfl
  rw [hrow, habs, if_neg (by norm_num)]

/-- C5: in ADD_STOCK mode the written records are exactly the per-entry
posts, an entry is posted (as a new IN transaction) exactly when its code's
derived status, defaulting to CLOSED, is CLOSED; every code without
transactions defaults to CLOSED, every posted record has type IN, and an
entry of an OPEN code yields no record. -/
theorem add_stock_posts_only_closed (items : List StockItem) (ts : ℕ) (uuid : ℕ → String)
    (entries : List ImportEntry) :
    handleImportAdd items ts uuid entries =
      entries.enum.filterMap (fun p => addStockPost items ts uuid p.1 p.2) ∧
    (∀ (idx : ℕ) (entry : ImportEntry),
      addStockPost items ts uuid idx entry ≠ none ↔
        statusOrClosed items entry.code = .CLOSED) ∧
    (∀ (idx : ℕ) (entry : ImportEntry),
      addStockPost items ts uuid idx entry = none ∨
        addStockPost items ts uuid idx entry =
          some { id := uuid idx, date := entry.date, code := entry.code,
                 provider := entry.provider, phoneNumber := entry.phoneNumber,
                 amount := entry.amount, type := .IN, orderNumber := entry.orderNumber,
                 createdAt := ts, createdBy := entry.createdBy }) ∧
    (∀ code : String, itemsForCode items code = [] → statusOrClosed items code = .CLOSED) := by
  refine ⟨?_, ?_, ?_, ?_⟩
  · unfold handleImportAdd
    rw [importStep_foldl]
    simp [List.enum]
  · intro idx entry
    unfold addStockPost
    by_cases h : statusOrClosed items entry.code = .CLOSED <;> simp [h]
  · intro idx entry
    unfold addStockPost
    by_cases h : statusOrClosed items entry.code = .CLOSED <;> simp [h]
  · intro code h
    simp [statusOrClosed, accountStatus?, sortByCreatedAt, h]

theorem sorted_le_getLast {l : List StockItem} (hs : List.Sorted txLe l)
    {x : StockItem} (hx : l.getLast? = some x) :
    ∀ y ∈ l, y.createdAt ≤ x.createdAt := by
  obtain ⟨ys, rfl⟩ := List.getLast?_eq_some_iff.mp hx
  intro y hy
  rcases List.mem_append.mp hy with h | h
  · exact (List.pairwise_append.mp hs).2.2 y h x (List.mem_singleton_self x)
  · rw [List.mem_singleton.mp h]

/-- C4: for every stock code with at least one transaction there is a most
recent transaction (maximal `createdAt`, the last one after the stable sort
by creation time) belonging to the code, and the derived status is a function
of its type: OPEN when it is IN or TEMP_USE, CLOSED when it is OUT. -/
theorem account_status_from_latest_tx (items : List StockItem) (code : String)
    (h : itemsForCode items code ≠ []) :
    ∃ lastTx : StockItem,
      lastTx ∈ itemsForCode items code ∧
      (∀ t ∈ itemsForCode items code, t.createdAt ≤ lastTx.createdAt) ∧
      ((lastTx.type = .IN ∨ lastTx.type = .TEMP_USE) →
        accountStatus? items code = some .OPEN) ∧
      (lastTx.type = .OUT → accountStatus? items code = some .CLOSED) := by
  have hperm := List.perm_insertionSort txLe (itemsForCode items code)
  have hsorted := List.sorted_insertionSort txLe (itemsForCode items code)
  have hne : sortByCreatedAt (itemsForCode items code) ≠ [] := by
    intro hnil
    simp only [sortByCreatedAt] at hnil
    rw [hnil] at hperm
    exact h hperm.symm.eq_nil
  rcases hlast : (sortByCreatedAt (itemsForCode items code)).getLast? with _ | x
  · exact absurd (List.getLast?_eq_none_iff.mp hlast) hne
  · refine ⟨x, ?_, ?_, ?_, ?_⟩
    · exact hperm.subset (List.mem_of_getLast?_eq_some (by simpa [sortByCreatedAt] using hlast))
    · intro t ht
      exact sorted_le_getLast (by simpa [sortByCreatedAt] using hsorted)
        hlast t (hperm.mem_iff.mpr ht)
    · intro htype
      simp only [accountStatus?]
      rw [hlast]
      rcases htype with htype | htype <;> simp [htype]
    · intro htype
      simp only [accountStatus?]
      rw [hlast]
      simp [htype]

/-- C4, witness: on a ledger with an IN then an OUT on code A the theorem
instantiates, and the status is read off the most recent transaction. -/
theorem account_status_from_latest_tx_witness :
    itemsForCode c4items "A" ≠ [] ∧
    (∃ lastTx : StockItem,
      lastTx ∈ itemsForCode c4items "A" ∧
      (∀ t ∈ itemsForCode c4items "A", t.createdAt ≤ lastTx.createdAt) ∧
      ((lastTx.type = .IN ∨ lastTx.type = .TEMP_USE) →
        accountStatus? c4items "A" = some .OPEN) ∧
      (lastTx.type = .OUT → accountStatus? c4items "A" = some .CLOSED)) :=
  ⟨by decide, account_status_from_latest_tx c4items "A" (by decide)⟩

theorem mem_foldl_delete {α : Type} (todo acc : List (String × α))
    (x : String × α) (hx : x ∈ todo.foldl (fun a d => deleteDocById d.1 a) acc) :
    x ∈ acc ∧ ∀ d ∈ todo, x.1 ≠ d.1 := by
  induction todo generalizing acc with
  | nil => simpa using hx
  | cons d todo ih =>
    simp only [List.foldl_cons] at hx
    obtain ⟨hmem, hrest⟩ := ih _ hx
    have hdel := List.mem_filter.mp hmem
    refine ⟨hdel.1, ?_⟩
    intro d' hd'
    rcases List.mem_cons.mp hd' with rfl | hd'
    · simpa using hdel.2
    · exact hrest d' hd'

theorem clearColl_eq_nil {α : Type} (coll : List (String × α)) : clearColl coll = [] := by
  rcases hres : clearColl coll with _ | ⟨x, rest⟩
  · rfl
  · exfalso
    have hx : x ∈ clearColl coll := by rw [hres]; exact List.mem_cons_self x rest
    simp only [clearColl] at hx
    obtain ⟨hmem, hall⟩ := mem_foldl_delete coll coll x hx
    exact hall x hmem rfl

/-- C8: the confirmed reset deletes every document of the inventory,
schedule, notes and employees collections and leaves the users collection
unchanged. -/
theorem reset_wipes_data_preserves_users (db : Database) :
    (handleResetData db).inventory = [] ∧
    (handleResetData db).schedule = [] ∧
    (handleResetData db).notes = [] ∧
    (handleResetData db).employees = [] ∧
    (handleResetData db).users = db.users :=
  ⟨clearColl_eq_nil _, clearColl_eq_nil _, clearColl_eq_nil _, clearColl_eq_nil _, rfl⟩

/-- C9: login succeeds exactly when the user list splits around a first
case-insensitive username match whose stored password equals the entered
password exactly; a successful match is the user found by the
case-insensitive search with an exactly matching password, and otherwise the
error banner is shown and the password field is cleared. -/
theorem login_success_iff_first_match (users : List User) (username password : String) :
    ((∃ u, (handleLogin users username password).loggedIn = some u) ↔
      (∃ pre u post, users = pre ++ u :: post ∧
        jsToLower u.username = jsToLower username ∧
        (∀ v ∈ pre, jsToLower v.username ≠ jsToLower username) ∧
        u.password = password)) ∧
    (∀ u, (handleLogin users username password).loggedIn = some u ↔
      users.find? (fun v => jsToLower v.username = jsToLower username) = some u ∧
      u.password = password) ∧
    ((handleLogin users username password).loggedIn = none ↔
      (handleLogin users username password).errorShown = true ∧
      (handleLogin users username password).passwordField = "") := by
  have hchar : ∀ u : User,
      (List.find? (fun v => decide (jsToLower v.username = jsToLower username)) users
          = some u ↔
      ∃ pre post, users = pre ++ u :: post ∧
        jsToLower u.username = jsToLower username ∧
        (∀ v ∈ pre, jsToLower v.username ≠ jsToLower username)) := by
    intro u
    rw [List.find?_eq_some]
    constructor
    · rintro ⟨hu, pre, post, heq, hpre⟩
      exact ⟨pre, post, heq, of_decide_eq_true hu,
        fun v hv => of_decide_eq_false (by simpa using hpre v hv)⟩
    · rintro ⟨pre, post, heq, hu, hpre⟩
      exact ⟨decide_eq_true hu, pre, post, heq,
        fun v hv => by simpa using decide_eq_false (hpre v hv)⟩
  rcases hf : users.find? (fun v => jsToLower v.username = jsToLower username) with _ | u0
  · have hout : handleLogin users username password = ⟨none, "", true⟩ := by
      unfold handleLogin
      rw [hf]
    refine ⟨?_, ?_, ?_⟩
    · rw [hout]
      simp only [LoginOutcome.loggedIn]
      constructor
      · rintro ⟨u, hu⟩; cases hu
      · rintro ⟨pre, u, post, heq, hu, hpre, hpw⟩
        have hn := List.find?_eq_none.mp hf u (by rw [heq]; simp)
        exact absurd (decide_eq_true hu) hn
    · intro u
      rw [hout, hf]
      simp
    · rw [hout]
      simp
  · by_cases hpw : u0.password = password
    · have hout : handleLogin users username password = ⟨some u0, password, false⟩ := by
        unfold handleLogin
        rw [hf]
        simp [hpw]
      refine ⟨?_, ?_, ?_⟩
      · rw [hout]
        simp only [LoginOutcome.loggedIn]
        constructor
        · rintro ⟨u, hu⟩
          obtain ⟨pre, post, heq, hu0, hpre⟩ := (hchar u0).mp hf
          exact ⟨pre, u0, post, heq, hu0, hpre, hpw⟩
        · intro _; exact ⟨u0, rfl⟩
      · intro u
        rw [hout]
        simp only [LoginOutcome.loggedIn, Option.some.injEq]
        constructor
        · rintro rfl; exact ⟨hf, hpw⟩
        · rintro ⟨hu, _⟩
          rw [hf] at hu
          exact (Option.some.injEq u0 u).mp hu
      · rw [hout]
        simp
    · have hout : handleLogin users username password = ⟨none, "", true⟩ := by
        unfold handleLogin
        rw [hf]
        simp [hpw]
      refine ⟨?_, ?_, ?_⟩
      · rw [hout]
        simp only [LoginOutcome.loggedIn]
        constructor
        · rintro ⟨u, hu⟩; cases hu
        · rintro ⟨pre, u, post, heq, hu, hpre, hpwu⟩
          have hfind : users.find?
              (fun v => jsToLower v.username = jsToLower username) = some u :=
            (hchar u).mpr ⟨pre, post, heq, hu, hpre⟩
          rw [hf] at hfind
          cases hfind
          exact absurd hpwu hpw
      · intro u
        rw [hout]
        simp only [LoginOutcome.loggedIn]
        constructor
        · intro hu; exact Option.noConfusion hu
        · rintro ⟨hu, hpwu⟩
          rw [hf] at hu
          cases hu
          exact absurd hpwu hpw
      · rw [hout]
        simp

/-- C10: the exported backup object holds exactly the five collections, in
order, under the keys items, employees, schedule, notes and users, each bound
to the current state of that collection. -/
theorem export_bundles_all_collections (items : List StockItem) (employees : List Employee)
    (schedule : List DaySchedule) (notes : List Note) (users : List User) :
    ((handleExportData items employees schedule notes users).map Prod.fst =
      ["items", "employees", "schedule", "notes", "users"]) ∧
    (handleExportData items employees schedule notes users).lookup "items" =
      some (.stockItems items) ∧
    (handleExportData items employees schedule notes users).lookup "employees" =
      some (.employeeList employees) ∧
    (handleExportData items employees schedule notes users).lookup "schedule" =
      some (.scheduleList schedule) ∧
    (handleExportData items employees schedule notes users).lookup "notes" =
      some (.noteList notes) ∧
    (handleExportData items employees schedule notes users).lookup "users" =
      some (.userList users) := by
  refine ⟨rfl, ?_, ?_, ?_, ?_, ?_⟩ <;> rfl


theorem parseLine_eq_none_iff (mode : ImportMode) (today : String) (line : List Char) :
    parseLine mode today line = none ↔ lineSkipped mode line := by
  by_cases hc : jsTrim line = []
  · have hw : splitWs ([] : List Char) = [] := rfl
    cases mode <;> simp [parseLine, hc, lineSkipped, hw]
  · cases mode with
    | ADD_STOCK =>
      rcases hw : splitWs (jsTrim line) with
        _ | ⟨p0, _ | ⟨p1, _ | ⟨p2, _ | ⟨p3, _ | ⟨p4, rest⟩⟩⟩⟩⟩ <;>
        simp [parseLine, hc, lineSkipped, hw]
    | CALCULATE_USAGE =>
      rcases hw : splitWs (jsTrim line) with _ | ⟨p0, _ | ⟨p1, rest⟩⟩ <;>
        simp [parseLine, hc, lineSkipped, hw]
    | AUDIT_SYSTEM =>
      rcases hw : splitWs (jsTrim line) with _ | ⟨p0, _ | ⟨p1, _ | ⟨p2, rest⟩⟩⟩ <;>
        simp [parseLine, hc, lineSkipped, hw]
      cases hpf : jsParseFloat (removeAllChar ',' (lastTok (p0 :: p1 :: p2 :: rest))) <;>
        simp [hpf]

/-- C6 (amended): manual-import lines are silently skipped exactly under the
per-mode checks of `lineSkipped` (too few tokens in every mode; a non-numeric
amount only in AUDIT_SYSTEM — in ADD_STOCK a five-token line with a
non-numeric amount still yields an item, and in CALCULATE_USAGE a missing or
non-numeric amount defaults to 0); the error banner appears exactly when
every line is skipped, and otherwise the non-skipped lines are exactly the
ones handed to the import. -/
theorem manual_parse_skips_malformed (mode : ImportMode) (today : String) (input : String) :
    (∀ line : List Char, parseLine mode today line = none ↔ lineSkipped mode line) ∧
    (handleManualParse mode today input = none ↔
      ∀ line ∈ splitOnChar '\n' (jsTrim input.data), parseLine mode today line = none) ∧
    (handleManualParse mode today input = none ∨
      handleManualParse mode today input =
        some ((splitOnChar '\n' (jsTrim input.data)).filterMap (parseLine mode today))) := by
  have hdef : handleManualParse mode today input =
      if (splitOnChar '\n' (jsTrim input.data)).filterMap (parseLine mode today) = [] then
        none
      else some ((splitOnChar '\n' (jsTrim input.data)).filterMap (parseLine mode today)) := rfl
  refine ⟨parseLine_eq_none_iff mode today, ?_, ?_⟩
  · rw [hdef]
    by_cases hp : (splitOnChar '\n' (jsTrim input.data)).filterMap (parseLine mode today) = []
    · rw [if_pos hp]
      constructor
      · intro _; exact List.filterMap_eq_nil_iff.mp hp
      · intro _; rfl
    · rw [if_neg hp]
      constructor
      · intro h; cases h
      · intro hall; exact absurd (List.filterMap_eq_nil_iff.mpr hall) hp
  · rw [hdef]
    by_cases hp : (splitOnChar '\n' (jsTrim input.data)).filterMap (parseLine mode today) = []
    · left; rw [if_pos hp]
    · right; rw [if_neg hp]

/-- C6, counterexample to the claim as stated: in ADD_STOCK mode a line with
the full five fields but a non-numeric amount ("xyz", which parses to NaN) is
not skipped — it yields an imported item whose stored amount is the NaN. -/
theorem manual_parse_nan_amount_imported_cex :
    handleManualParse .ADD_STOCK "30-Nov-2025" "01-Dec-2025 C105 Celcom 0138456954 xyz" =
      some [{ date := "01-Dec-2025", code := "C105", provider := "Celcom",
              phoneNumber := some "0138456954", amount := none }] ∧
    (splitWs (jsTrim "01-Dec-2025 C105 Celcom 0138456954 xyz".data)).length = 5 ∧
    jsParseFloat "xyz".data = none := by
  refine ⟨by decide, by decide, by decide⟩

set_option maxRecDepth 20000

/-- C7, evaluation at the failing input: restoring a collection of 451
records fails, because the one write batch is committed at 450 operations and
then reused for the 451st set operation, which the modelled Firestore batch
rejects; a collection of exactly 450 records is uploaded in a single
committed batch holding every record once. -/
theorem restore_reuses_committed_batch :
    uploadCollection (List.replicate 451 { id := "r", day := "" }) =
      Except.error "batch already committed" ∧
    uploadCollection (List.replicate 450 { id := "r", day := "" }) =
      Except.ok [List.replicate 450 ("r", { id := "r", day := "" })] := by
  constructor <;> decide

end StockFlow
